import Mathlib

/-!
Shallow embedding of the 8-queens genetic-search program
(`state.py` and `genetic_search.py`).

A board state is a digit string of length 8 over the digits 1..8; we model
the digit characters by their numeric values, so a state's digit string is
a `List Nat`.  Fallible operations (the Python `assert`s and the library
errors they stand next to) are modelled with `Except Err`.
-/

namespace NQueens

/-- The failure modes of the program: the four validation failures named by
the error taxonomy (wrong state shape, unrecognized file label, mutation
probability out of range, bad sample size) plus Python's `IndexError` for
out-of-range integer indexing of the digit string. -/
inductive Err where
  | invalidState
  | invalidFile
  | invalidProbability
  | sampleSize
  | indexError
deriving DecidableEq, Repr

/-- `State._VALID_DIGITS = '12345678'`, with each digit character modelled
by its numeric value. -/
def validDigits : List Nat := [1, 2, 3, 4, 5, 6, 7, 8]

/-- `State._N = len(State._VALID_DIGITS) = 8`. -/
def NDIGITS : Nat := validDigits.length

/-- `State._FILES = 'abcdefgh'`. -/
def FILES : List Char := ['a', 'b', 'c', 'd', 'e', 'f', 'g', 'h']

/-- The State invariant: exactly 8 digits, each in `[1, 8]`. -/
def validState (ds : List Nat) : Prop :=
  ds.length = 8 ∧ ∀ d ∈ ds, 1 ≤ d ∧ d ≤ 8

instance (ds : List Nat) : Decidable (validState ds) := by
  unfold validState; infer_instance

/-- `State.__init__`: asserts the digit count is 8 and every digit value is
in `[1, 8]`, then stores the digit string unchanged.  The failed `assert`s
are the spec's `InvalidStateError`. -/
def mkState (ds : List Nat) : Except Err (List Nat) :=
  if ds.length ≠ NDIGITS then .error .invalidState
  else if ds.all (fun d => 1 ≤ d && d ≤ NDIGITS) then .ok ds
  else .error .invalidState

/-- Python substring search: `findSub s sub` is `s.index(sub)` as an
`Option` — `some i` for the start index of the first occurrence of the
contiguous substring `sub` in `s`, `none` when `sub` does not occur.
`sub in s` (Python `in` on strings) is exactly `(findSub s sub).isSome`;
note the empty string occurs at index 0. -/
def findSub : List Char → List Char → Option Nat
  | [], sub => if sub.isPrefixOf [] then some 0 else none
  | c :: t, sub =>
      if sub.isPrefixOf (c :: t) then some 0
      else (findSub t sub).map (· + 1)

/-- `sub` occurs as a contiguous substring of `s` (what Python's
`sub in s` tests on strings). -/
def occursIn (sub s : List Char) : Prop :=
  ∃ t u, s = t ++ sub ++ u

/-- `State.__getitem__` on a string key: `assert key in self._FILES` (Python
substring containment — the failed assert is the spec's `InvalidFileError`),
then return `self._digits[self._FILES.index(key)]`. -/
def getitemStr (ds : List Nat) (key : List Char) : Except Err Nat :=
  match findSub FILES key with
  | some i => .ok (ds.getD i 0)
  | none => .error .invalidFile

/-- `State.__getitem__` on an integer key: Python string indexing on
`self._digits` — non-negative indices below the length are direct,
negative indices from `-len` count from the end, anything else raises
`IndexError`. -/
def getitemInt (ds : List Nat) (i : Int) : Except Err Nat :=
  if 0 ≤ i ∧ i < (ds.length : Int) then .ok (ds.getD i.toNat 0)
  else if -(ds.length : Int) ≤ i ∧ i < 0 then
    .ok (ds.getD ((ds.length : Int) + i).toNat 0)
  else .error .indexError

/-- The crossover in `State.mate`: `self[:c] + other[c:]`. -/
def crossover (a b : List Nat) (c : Nat) : List Nat :=
  a.take c ++ b.drop c

/-- The mutation pass in `State.mate`: for each index `i` of the digit
string, if the mutation draw fires (`random.random() < p`, modelled by the
oracle `flag`), replace the digit with `random.choice('12345678')`
(modelled by the oracle `val` selecting a position in `validDigits`; any
out-of-range oracle value falls back to the digit 1, which is itself a
possible outcome of the draw, so the set of modelled outcomes is exactly
the set of real ones). -/
def mutate (ds : List Nat) (flag : Nat → Bool) (val : Nat → Nat) : List Nat :=
  (List.range ds.length).map
    (fun i => if flag i then validDigits.getD (val i) 1 else ds.getD i 0)

/-- The digit string built by `State.mate` from the sampled crossover point
`c` and the mutation draws: crossover, then — only if the mutation
probability is strictly positive — the mutation pass. -/
def mateDigits (a b : List Nat) (p : ℚ) (c : Nat)
    (flag : Nat → Bool) (val : Nat → Nat) : List Nat :=
  let ds := crossover a b c
  if 0 < p then mutate ds flag val else ds

/-- `State.mate`: asserts `0.0 <= mutation_probability < 1.0` (the failed
assert is the spec's `InvalidProbabilityError`; the float comparisons agree
with rational order, so the probability is modelled as a rational), then
builds the offspring digits and passes them to the `State` constructor.
The crossover point `c` (in the program `random.randint(0, 7)`) and the
mutation draws are oracle parameters. -/
def mate (a b : List Nat) (p : ℚ) (c : Nat)
    (flag : Nat → Bool) (val : Nat → Nat) : Except Err (List Nat) :=
  if 0 ≤ p ∧ p < 1 then mkState (mateDigits a b p c flag val)
  else .error .invalidProbability

/-- `BOARD_SIZE = 8` from `genetic_search.py`. -/
def BOARD_SIZE : Nat := 8

/-- `SOLUTION = 28` from `genetic_search.py`. -/
def SOLUTION : Nat := 28

/-- The condition under which `fitness` scores a pair `(i, j)`:
`s[i] != s[j] and abs(i - j) != abs(int(s[i]) - int(s[j]))`. -/
def nonAttacking (s : List Nat) (i j : Nat) : Bool :=
  (s.getD i 0 != s.getD j 0)
    && (((i : Int) - (j : Int)).natAbs != ((s.getD i 0 : Int) - (s.getD j 0 : Int)).natAbs)

/-- `fitness` from `genetic_search.py`: for `i in range(BOARD_SIZE)`, for
`j in range(i + 1, 8)`, add one to the score when the pair does not
attack. -/
def fitness (s : List Nat) : Nat :=
  (List.range BOARD_SIZE).foldl
    (fun score i =>
      (List.range' (i + 1) (8 - (i + 1))).foldl
        (fun sc j => if nonAttacking s i j then sc + 1 else sc) score)
    0

/-- `goal` from `genetic_search.py`: `fitness(s) == SOLUTION`. -/
def goal (s : List Nat) : Bool :=
  fitness s == SOLUTION

/-- Columns `i` and `j` attack each other, in the words of the spec: equal
row values, or the absolute column difference equals the absolute row
difference. -/
def attackProp (s : List Nat) (i j : Nat) : Prop :=
  s.getD i 0 = s.getD j 0
    ∨ ((i : Int) - (j : Int)).natAbs = ((s.getD i 0 : Int) - (s.getD j 0 : Int)).natAbs

instance (s : List Nat) (i j : Nat) : Decidable (attackProp s i j) := by
  unfold attackProp; infer_instance

/-- The set of column pairs `(i, j)` with `i < j < 8` whose queens do not
attack each other — the quantity the spec says `fitness` counts. -/
def noAttackPairs (s : List Nat) : Finset (Nat × Nat) :=
  (Finset.range 8 ×ˢ Finset.range 8).filter
    (fun p => p.1 < p.2 ∧ ¬ attackProp s p.1 p.2)

/-- The pairs `(i, j)` scanned by the two nested loops of `fitness`. -/
def pairList : List (Nat × Nat) :=
  (List.range BOARD_SIZE).flatMap
    (fun i => (List.range' (i + 1) (8 - (i + 1))).map (fun j => (i, j)))

/-- `itertools.product('12345678', repeat=n)`: every length-`n` tuple over
the valid digits, in lexicographic order, with no repetitions.  The class
attribute `State._possible_states` is `tuplesOf 8` (materialized lazily on
the first `State.generator` call). -/
def tuplesOf : Nat → List (List Nat)
  | 0 => [[]]
  | n + 1 => validDigits.flatMap (fun d => (tuplesOf n).map (fun t => d :: t))

/-- A possible outcome of `random.sample(State._possible_states, k)`:
`k` pairwise-distinct elements of the enumerated tuple space. -/
def sampleOutcome (k : Nat) (sample : List (List Nat)) : Prop :=
  sample.length = k ∧ sample.Nodup ∧ ∀ t ∈ sample, t ∈ tuplesOf 8

/-- The yield loop of `State.generator`: construct a `State` from each
drawn tuple in turn; a failed constructor assert aborts the run. -/
def yieldStates : List (List Nat) → Except Err (List (List Nat))
  | [] => .ok []
  | t :: ts =>
    match mkState t with
    | .ok s =>
      match yieldStates ts with
      | .ok ss => .ok (s :: ss)
      | .error e => .error e
    | .error e => .error e

/-- `State.generator(num_states)`: asserts `num_states > 0` (the failed
assert is the spec's `SampleSizeError`), materializes the full tuple space,
and draws `num_states` states from it via `random.sample`, which raises
`ValueError` — the spec's `SampleSizeError` again — when the request
exceeds the population size.  The sample outcome is an oracle parameter;
each drawn tuple is passed through the `State` constructor. -/
def generator (count : Int) (sample : List (List Nat)) :
    Except Err (List (List Nat)) :=
  if count ≤ 0 then .error .sampleSize
  else if ((tuplesOf 8).length : Int) < count then .error .sampleSize
  else yieldStates sample

/-!
The `State` class defines neither `__eq__` nor `__hash__`, so Python's
default object semantics apply: equality is object identity, and the
default hash is derived from the object id.  Two `State` objects that are
alive at the same time always have distinct ids.  `PyState` models a
constructed `State` object: its identity `oid` together with the stored
digit string.
-/

/-- A constructed `State` object: object identity plus stored digits. -/
structure PyState where
  oid : Nat
  digits : List Nat
deriving DecidableEq, Repr

/-- Python `==` on two `State` objects: the class defines no `__eq__`, so
`object.__eq__` — identity comparison — is used. -/
def pyStateEq (a b : PyState) : Bool :=
  a.oid == b.oid

/-- Python `hash` of a `State` object: the class defines no `__hash__`, so
the default id-derived hash is used. -/
def pyHash (a : PyState) : Nat :=
  a.oid

/-- Whether `k` is already a key of the dict `m` (keyed by `State`
equality, i.e. identity). -/
def dictHasKey (m : List (PyState × Nat)) (k : PyState) : Bool :=
  m.any (fun e => pyStateEq e.1 k)

/-- `hashmap[k] = v` on the Population dict: overwrite the entry whose key
compares equal to `k` if there is one, otherwise append a new entry. -/
def dictInsert (m : List (PyState × Nat)) (k : PyState) (v : Nat) :
    List (PyState × Nat) :=
  if dictHasKey m k then
    m.map (fun e => if pyStateEq e.1 k then (e.1, v) else e)
  else m ++ [(k, v)]

/-- `K = 1000` from `genetic_search.py`. -/
def K : Nat := 1000

/-- `MUTATION_PROBABILITY = 0.05` from `genetic_search.py`, modelled as the
rational `1/20` (every comparison the program makes with it — the range
assert and the `> 0` test — agrees with rational order). -/
def MUTATION_PROBABILITY : ℚ := 1 / 20

/-- The loop state of one generation of the search: the global `iterations`
counter, the `searching` flag, the current `golden_child` (if a goal child
has been assigned), and the sequence of children inserted into the
Population so far in this generation. -/
structure GenResult where
  iterations : Nat
  searching : Bool
  golden : Option (List Nat)
  children : List (List Nat)
deriving DecidableEq, Repr

/-- The child bred at inner-loop index `i`:
`maiting_pairs[i].mate(maiting_pairs[i+1], MUTATION_PROBABILITY)`, with the
crossover point and mutation draws of iteration `i` given by the oracles
`oc`, `om`, `ov`. -/
def childAt (pool : List (List Nat)) (oc : Nat → Nat)
    (om : Nat → Nat → Bool) (ov : Nat → Nat → Nat) (i : Nat) : List Nat :=
  mateDigits (pool.getD i []) (pool.getD (i + 1) []) MUTATION_PROBABILITY
    (oc i) (om i) (ov i)

/-- The body of the breeding loop `for i in range(K - 1)`: increment
`iterations`, breed the child, record it in the Population, and on a goal
hit assign `golden_child` and clear `searching` — with no break, so the
loop continues to the next index regardless. -/
def genBody (pool : List (List Nat)) (oc : Nat → Nat)
    (om : Nat → Nat → Bool) (ov : Nat → Nat → Nat)
    (r : GenResult) (i : Nat) : GenResult :=
  let child := childAt pool oc om ov i
  { iterations := r.iterations + 1
    searching := if goal child then false else r.searching
    golden := if goal child then some child else r.golden
    children := r.children ++ [child] }

/-- One full generation of the `while searching` loop, starting from loop
state `r`: run the breeding loop over `range(K - 1)` on the ranked mating
pool. -/
def runGeneration (pool : List (List Nat)) (oc : Nat → Nat)
    (om : Nat → Nat → Bool) (ov : Nat → Nat → Nat) (r : GenResult) :
    GenResult :=
  (List.range (K - 1)).foldl (genBody pool oc om ov) r

/-- The loop state at the start of a generation in a run that is still
searching: `iterations = it`, `searching` true, no goal child yet, no
children bred yet this generation. -/
def initGen (it : Nat) : GenResult :=
  { iterations := it, searching := true, golden := none, children := [] }

/-- The last goal child of a sequence of children, if any: the value
`golden_child` holds after the loop has tested every child in the sequence
without ever breaking. -/
def lastGoal (cs : List (List Nat)) : Option (List Nat) :=
  (cs.filter (fun c => goal c)).getLast?

/-- The known 8-queens solution `'41582736'`. -/
def G1 : List Nat := [4, 1, 5, 8, 2, 7, 3, 6]

/-- The known 8-queens solution `'15863724'`, distinct from `G1`. -/
def G2 : List Nat := [1, 5, 8, 6, 3, 7, 2, 4]

/-- A mating pool of size `K = 1000` on which the breeding loop meets a
goal child on its very first mating call: with crossover point 0 and no
mutation draw firing, the child of pair `(i, i+1)` is just pool member
`i + 1`, so the children are `G1` followed by 998 copies of `G2`. -/
def cexPool : List (List Nat) :=
  [1, 1, 1, 1, 1, 1, 1, 1] :: G1 :: List.replicate 998 G2

/-- The breeding loop run on `cexPool` with crossover point 0 on every
iteration and no mutation draw firing. -/
def cexRun : GenResult :=
  runGeneration cexPool (fun _ => 0) (fun _ _ => false) (fun _ _ => 0) (initGen 0)

/-! ### Constructor (claim C9) -/

theorem mkState_ok_of_valid (ds : List Nat) (h : validState ds) :
    mkState ds = .ok ds := by
  obtain ⟨hlen, hall⟩ := h
  have hall' : ds.all (fun d => 1 ≤ d && d ≤ NDIGITS) = true := by
    simp only [List.all_eq_true, Bool.and_eq_true, decide_eq_true_eq, NDIGITS,
      validDigits, List.length_cons, List.length_nil]
    intro d hd
    exact ⟨(hall d hd).1, (hall d hd).2⟩
  have hlen' : ds.length = NDIGITS := by
    simp [NDIGITS, validDigits, hlen]
  simp [mkState, hlen', hall']

theorem mkState_error_of_invalid (ds : List Nat) (h : ¬ validState ds) :
    mkState ds = .error .invalidState := by
  by_cases hlen : ds.length = NDIGITS
  · have hall : ¬ ds.all (fun d => 1 ≤ d && d ≤ NDIGITS) = true := by
      intro hc
      apply h
      refine ⟨by simpa [NDIGITS, validDigits] using hlen, ?_⟩
      intro d hd
      have := List.all_eq_true.mp hc d hd
      simp only [Bool.and_eq_true, decide_eq_true_eq, NDIGITS, validDigits,
        List.length_cons, List.length_nil] at this
      exact this
    simp [mkState, hlen, hall]
  · simp [mkState, hlen]

/-- C9: the `State` constructor succeeds exactly on inputs of 8 values all
in `[1, 8]`, storing the sequence unchanged, and fails with
`InvalidStateError` on any input whose length is not 8 or that contains a
value outside `[1, 8]`. -/
theorem c9_constructor_contract (ds : List Nat) :
    (mkState ds = .ok ds ↔ validState ds) ∧
    (¬ validState ds → mkState ds = .error .invalidState) ∧
    (∀ ds', mkState ds = .ok ds' → ds' = ds) := by
  refine ⟨⟨fun hok => ?_, mkState_ok_of_valid ds⟩,
    mkState_error_of_invalid ds, fun ds' hok => ?_⟩
  · by_contra hinv
    rw [mkState_error_of_invalid ds hinv] at hok
    exact Except.noConfusion hok
  · unfold mkState at hok
    split at hok
    · exact Except.noConfusion hok
    · split at hok
      · exact (Except.ok.injEq _ _ ▸ congrArg id hok).symm ▸ by
          cases hok
          rfl
      · exact Except.noConfusion hok

/-- Witness for C9: a valid digit string is accepted unchanged and an
out-of-range one is rejected with `InvalidStateError`. -/
theorem c9_constructor_contract_witness :
    mkState [1, 2, 3, 4, 5, 6, 7, 8] = .ok [1, 2, 3, 4, 5, 6, 7, 8] ∧
    mkState [0, 2, 3, 4, 5, 6, 7, 8] = .error .invalidState := by
  refine ⟨(c9_constructor_contract [1, 2, 3, 4, 5, 6, 7, 8]).1.mpr (by decide),
    (c9_constructor_contract [0, 2, 3, 4, 5, 6, 7, 8]).2.1 (by decide)⟩

/-! ### Object identity, equality and the Population mapping (claim C1) -/

/-- C1 counterexample: two `State` objects constructed from the identical
digit string `'11111111'` (necessarily with distinct object ids) do not
compare equal, hash differently, and inserting both into an empty
Population dict keeps two entries, not one. -/
theorem c1_counterexample :
    (PyState.mk 0 [1, 1, 1, 1, 1, 1, 1, 1]).digits
        = (PyState.mk 1 [1, 1, 1, 1, 1, 1, 1, 1]).digits ∧
    pyStateEq (PyState.mk 0 [1, 1, 1, 1, 1, 1, 1, 1])
        (PyState.mk 1 [1, 1, 1, 1, 1, 1, 1, 1]) = false ∧
    pyHash (PyState.mk 0 [1, 1, 1, 1, 1, 1, 1, 1])
        ≠ pyHash (PyState.mk 1 [1, 1, 1, 1, 1, 1, 1, 1]) ∧
    (dictInsert (dictInsert [] (PyState.mk 0 [1, 1, 1, 1, 1, 1, 1, 1]) 0)
        (PyState.mk 1 [1, 1, 1, 1, 1, 1, 1, 1]) 0).length = 2 := by
  decide

/-- C1 amended: `State` defines neither `__eq__` nor `__hash__`, so
equality and hashing are by object identity.  Two States constructed from
identical row sequences (distinct objects, hence distinct ids) compare
unequal, hash differently, and are distinct keys: inserting two such
children into the Population mapping adds two entries. -/
theorem c1_identity_semantics (d : List Nat) (o1 o2 v1 v2 : Nat)
    (m : List (PyState × Nat)) (hne : o1 ≠ o2)
    (h1 : dictHasKey m (PyState.mk o1 d) = false)
    (h2 : dictHasKey m (PyState.mk o2 d) = false) :
    pyStateEq (PyState.mk o1 d) (PyState.mk o2 d) = false ∧
    pyHash (PyState.mk o1 d) ≠ pyHash (PyState.mk o2 d) ∧
    (dictInsert (dictInsert m (PyState.mk o1 d) v1)
        (PyState.mk o2 d) v2).length = m.length + 2 := by
  refine ⟨by simp [pyStateEq, hne], by simpa [pyHash] using hne, ?_⟩
  have e1 : dictInsert m (PyState.mk o1 d) v1 = m ++ [(PyState.mk o1 d, v1)] := by
    simp [dictInsert, h1]
  have h2' : dictHasKey (m ++ [(PyState.mk o1 d, v1)]) (PyState.mk o2 d) = false := by
    simp only [dictHasKey, List.any_append, Bool.or_eq_false_iff]
    refine ⟨h2, by simp [pyStateEq, hne]⟩
  rw [e1, dictInsert, h2', if_neg (by simp)]
  simp

/-- Witness for the amended C1 theorem at concrete objects. -/
theorem c1_identity_semantics_witness :
    pyStateEq (PyState.mk 0 [1, 2, 3, 4, 5, 6, 7, 8])
        (PyState.mk 1 [1, 2, 3, 4, 5, 6, 7, 8]) = false ∧
    pyHash (PyState.mk 0 [1, 2, 3, 4, 5, 6, 7, 8])
        ≠ pyHash (PyState.mk 1 [1, 2, 3, 4, 5, 6, 7, 8]) ∧
    (dictInsert (dictInsert [] (PyState.mk 0 [1, 2, 3, 4, 5, 6, 7, 8]) 25)
        (PyState.mk 1 [1, 2, 3, 4, 5, 6, 7, 8]) 25).length
      = ([] : List (PyState × Nat)).length + 2 :=
  c1_identity_semantics [1, 2, 3, 4, 5, 6, 7, 8] 0 1 25 25 []
    (by decide) (by decide) (by decide)

/-! ### Integer indexing (claim C10) -/

/-- Non-negative in-range integer indexing returns the digit at that
position. -/
theorem getitemInt_nonneg (ds : List Nat) (i : Nat) (h : validState ds)
    (hi : i < 8) : getitemInt ds (i : Int) = .ok (ds.getD i 0) := by
  have hlen : ds.length = 8 := h.1
  unfold getitemInt
  rw [hlen]
  rw [if_pos ⟨Int.ofNat_nonneg i, by exact_mod_cast hi⟩]
  simp

/-- C10: indexing a valid State with a negative integer in `[-8, -1]` is
accepted and returns the digit at position `8 + i`, following Python string
indexing. -/
theorem c10_negative_indexing (ds : List Nat) (i : Int) (h : validState ds)
    (h1 : -8 ≤ i) (h2 : i ≤ -1) :
    getitemInt ds i = .ok (ds.getD ((8 : Int) + i).toNat 0) := by
  have hlen : ds.length = 8 := h.1
  unfold getitemInt
  rw [hlen]
  rw [if_neg (by omega), if_pos (by constructor <;> omega)]
  norm_num

/-- Witness for C10: `s[-1]` on `'12345678'` is the last digit, `8`. -/
theorem c10_negative_indexing_witness :
    getitemInt [1, 2, 3, 4, 5, 6, 7, 8] (-1) = .ok 8 := by
  have := c10_negative_indexing [1, 2, 3, 4, 5, 6, 7, 8] (-1)
    (by decide) (by decide) (by decide)
  simpa using this

/-! ### String-key lookup (claim C8) -/

theorem isPrefixOf_iff_append (a : List Char) :
    ∀ b : List Char, a.isPrefixOf b = true ↔ ∃ u, b = a ++ u := by
  induction a with
  | nil => intro b; simp [List.isPrefixOf]
  | cons x xs ih =>
    intro b
    cases b with
    | nil =>
      simp [List.isPrefixOf]
    | cons y ys =>
      simp only [List.isPrefixOf, Bool.and_eq_true, beq_iff_eq, ih,
        List.cons_append, List.cons.injEq]
      constructor
      · rintro ⟨hxy, u, hu⟩; exact ⟨u, hxy.symm, hu⟩
      · rintro ⟨u, hxy, hu⟩; exact ⟨hxy.symm, u, hu⟩

theorem occursIn_nil (sub : List Char) : occursIn sub [] ↔ sub = [] := by
  constructor
  · rintro ⟨t, u, h⟩
    rcases List.append_eq_nil.mp h.symm with ⟨h1, h2⟩
    exact (List.append_eq_nil.mp h1).2
  · rintro rfl; exact ⟨[], [], rfl⟩

theorem occursIn_cons (sub : List Char) (c : Char) (s : List Char) :
    occursIn sub (c :: s) ↔ (∃ u, c :: s = sub ++ u) ∨ occursIn sub s := by
  constructor
  · rintro ⟨t, u, h⟩
    cases t with
    | nil => exact Or.inl ⟨u, by simpa using h⟩
    | cons x ts =>
      right
      rw [List.cons_append, List.cons_append] at h
      exact ⟨ts, u, by injection h with _ h2⟩
  · rintro (⟨u, hu⟩ | ⟨t, u, hu⟩)
    · exact ⟨[], u, by simpa using hu⟩
    · exact ⟨c :: t, u, by simp [hu]⟩

theorem findSub_eq_none_iff (sub : List Char) :
    ∀ s : List Char, findSub s sub = none ↔ ¬ occursIn sub s := by
  intro s
  induction s with
  | nil =>
    rw [occursIn_nil]
    unfold findSub
    rcases sub with _ | ⟨c, cs⟩
    · simp [List.isPrefixOf]
    · simp [List.isPrefixOf]
  | cons c t ih =>
    unfold findSub
    rw [occursIn_cons]
    by_cases hp : sub.isPrefixOf (c :: t) = true
    · rw [if_pos hp]
      simp only [reduceCtorEq, false_iff, not_or]
      intro hcon
      exact hcon.1 ((isPrefixOf_iff_append sub (c :: t)).mp hp)
    · rw [if_neg hp]
      simp only [Option.map_eq_none', ih, not_or]
      constructor
      · intro hn
        exact ⟨fun hex => hp ((isPrefixOf_iff_append sub (c :: t)).mpr hex), hn⟩
      · exact fun hn => hn.2

theorem findSub_some_drop (sub : List Char) :
    ∀ (s : List Char) (n : Nat), findSub s sub = some n →
      sub.isPrefixOf (s.drop n) = true := by
  intro s
  induction s with
  | nil =>
    intro n h
    unfold findSub at h
    split at h
    · cases h
      simpa using ‹sub.isPrefixOf [] = true›
    · exact Option.noConfusion h
  | cons c t ih =>
    intro n h
    unfold findSub at h
    split at h
    · cases h
      simpa using ‹sub.isPrefixOf (c :: t) = true›
    · rcases Option.map_eq_some'.mp h with ⟨m, hm, rfl⟩
      simpa using ih m hm

/-- C8 counterexample: the multi-letter key `'ab'` is not one of the
single-letter labels `'a'..'h'`, yet looking it up does not fail — Python's
`in` on strings is substring containment, so the assert passes and the
lookup returns the digit at the substring's start index. -/
theorem c8_counterexample :
    getitemStr [1, 2, 3, 4, 5, 6, 7, 8] ['a', 'b'] = .ok 1 ∧
    (∀ c ∈ FILES, ['a', 'b'] ≠ [c]) := by
  constructor
  · rfl
  · decide

/-- C8 amended: single-letter labels `'a'..'h'` agree with 0-based integer
indexing, but a string key fails with `InvalidFileError` exactly when it is
not a contiguous substring of `'abcdefgh'`; any substring key (including
the empty string and multi-letter runs such as `'ab'`) is accepted and
returns the digit at an index where the key occurs. -/
theorem c8_label_lookup (ds : List Nat) (key : List Char) (h : validState ds) :
    (∀ i : Nat, i < 8 → getitemStr ds [FILES.getD i 'a'] = getitemInt ds (i : Int)) ∧
    (getitemStr ds key = .error .invalidFile ↔ ¬ occursIn key FILES) ∧
    (∀ n, findSub FILES key = some n →
      getitemStr ds key = .ok (ds.getD n 0) ∧ key.isPrefixOf (FILES.drop n) = true) := by
  refine ⟨?_, ?_, ?_⟩
  · intro i hi
    interval_cases i <;>
      rw [getitemInt_nonneg ds _ h (by omega)] <;> rfl
  · rw [← findSub_eq_none_iff key FILES]
    unfold getitemStr
    rcases hf : findSub FILES key with _ | n <;> simp [hf]
  · intro n hn
    refine ⟨?_, findSub_some_drop key FILES n hn⟩
    unfold getitemStr
    rw [hn]

/-- Witness for the amended C8 theorem: on `'12345678'`, label `'a'` agrees
with index 0 and the unrecognized label `'z'` fails. -/
theorem c8_label_lookup_witness :
    getitemStr [1, 2, 3, 4, 5, 6, 7, 8] ['a']
        = getitemInt [1, 2, 3, 4, 5, 6, 7, 8] ((0 : Nat) : Int) ∧
    (getitemStr [1, 2, 3, 4, 5, 6, 7, 8] ['z'] = .error .invalidFile
        ↔ ¬ occursIn ['z'] FILES) := by
  refine ⟨(c8_label_lookup [1, 2, 3, 4, 5, 6, 7, 8] ['z'] (by decide)).1 0 (by decide),
    (c8_label_lookup [1, 2, 3, 4, 5, 6, 7, 8] ['z'] (by decide)).2.1⟩

/-! ### Crossover and mutation (claims C4, C5, C7) -/

/-- Every possible outcome of `random.choice('12345678')` is a digit in
`[1, 8]`. -/
theorem digit_choice_valid (n : Nat) :
    1 ≤ validDigits.getD n 1 ∧ validDigits.getD n 1 ≤ 8 := by
  unfold validDigits
  match n with
  | 0 | 1 | 2 | 3 | 4 | 5 | 6 | 7 => decide
  | m + 8 => simp [List.getD]

theorem crossover_valid (a b : List Nat) (c : Nat)
    (ha : validState a) (hb : validState b) : validState (crossover a b c) := by
  obtain ⟨hal, hav⟩ := ha
  obtain ⟨hbl, hbv⟩ := hb
  constructor
  · simp only [crossover, List.length_append, List.length_take, List.length_drop,
      hal, hbl]
    omega
  · intro d hd
    rcases List.mem_append.mp hd with hmem | hmem
    · exact hav d (List.take_subset c a hmem)
    · exact hbv d (List.drop_subset c b hmem)

theorem mutate_length (ds : List Nat) (flag : Nat → Bool) (val : Nat → Nat) :
    (mutate ds flag val).length = ds.length := by
  simp [mutate]

theorem mutate_valid (ds : List Nat) (flag : Nat → Bool) (val : Nat → Nat)
    (h : validState ds) : validState (mutate ds flag val) := by
  obtain ⟨hl, hv⟩ := h
  refine ⟨by rw [mutate_length, hl], ?_⟩
  intro d hd
  simp only [mutate, List.mem_map, List.mem_range] at hd
  obtain ⟨i, hi, hdef⟩ := hd
  by_cases hf : flag i
  · rw [if_pos hf] at hdef
    exact hdef ▸ digit_choice_valid (val i)
  · rw [if_neg hf] at hdef
    have hmem : ds.getD i 0 ∈ ds := by
      rw [List.getD_eq_getElem ds 0 hi]
      exact List.getElem_mem hi
    exact hdef ▸ hv _ hmem

theorem mateDigits_valid (a b : List Nat) (p : ℚ) (c : Nat)
    (flag : Nat → Bool) (val : Nat → Nat)
    (ha : validState a) (hb : validState b) :
    validState (mateDigits a b p c flag val) := by
  unfold mateDigits
  by_cases hp : 0 < p
  · rw [if_pos hp]
    exact mutate_valid _ flag val (crossover_valid a b c ha hb)
  · rw [if_neg hp]
    exact crossover_valid a b c ha hb

/-- C4: with mutation probability 0, `mate` is determined solely by the
crossover point `c` in `[0, 7]` — the mutation draw oracles do not appear
in the result, which is `a`'s digits before `c` followed by `b`'s digits
from `c` on. -/
theorem c4_crossover_deterministic (a b : List Nat) (c : Nat)
    (flag : Nat → Bool) (val : Nat → Nat)
    (ha : validState a) (hb : validState b) (hc : c ≤ 7) :
    mate a b 0 c flag val = .ok (a.take c ++ b.drop c) := by
  unfold mate
  rw [if_pos ⟨le_refl 0, by norm_num⟩]
  have : mateDigits a b 0 c flag val = a.take c ++ b.drop c := by
    simp [mateDigits, crossover]
  rw [this]
  exact mkState_ok_of_valid _ (crossover_valid a b c ha hb)

/-- Witness for C4 at `a = '12345678'`, `b = '87654321'`, `c = 3`. -/
theorem c4_crossover_deterministic_witness :
    mate [1, 2, 3, 4, 5, 6, 7, 8] [8, 7, 6, 5, 4, 3, 2, 1] 0 3
        (fun _ => true) (fun _ => 0)
      = .ok ([1, 2, 3, 4, 5, 6, 7, 8].take 3 ++ [8, 7, 6, 5, 4, 3, 2, 1].drop 3) :=
  c4_crossover_deterministic [1, 2, 3, 4, 5, 6, 7, 8] [8, 7, 6, 5, 4, 3, 2, 1] 3
    (fun _ => true) (fun _ => 0) (by decide) (by decide) (by decide)

/-- C5: for valid parents, any mutation probability in `[0, 1)`, any
crossover point in `[0, 7]` and any outcome of the mutation draws, `mate`
returns a State satisfying the invariant — exactly 8 positions, each value
in `[1, 8]`. -/
theorem c5_mate_invariant (a b : List Nat) (p : ℚ) (c : Nat)
    (flag : Nat → Bool) (val : Nat → Nat)
    (ha : validState a) (hb : validState b)
    (hp0 : 0 ≤ p) (hp1 : p < 1) (hc : c ≤ 7) :
    ∃ s, mate a b p c flag val = .ok s ∧ validState s := by
  refine ⟨mateDigits a b p c flag val, ?_, mateDigits_valid a b p c flag val ha hb⟩
  unfold mate
  rw [if_pos ⟨hp0, hp1⟩]
  exact mkState_ok_of_valid _ (mateDigits_valid a b p c flag val ha hb)

/-- Witness for C5 at concrete parents, `p = 1/20`, `c = 5`, with a
mutation draw firing at every position. -/
theorem c5_mate_invariant_witness :
    ∃ s, mate [1, 2, 3, 4, 5, 6, 7, 8] [8, 7, 6, 5, 4, 3, 2, 1] (1 / 20) 5
        (fun _ => true) (fun i => i) = .ok s ∧ validState s :=
  c5_mate_invariant [1, 2, 3, 4, 5, 6, 7, 8] [8, 7, 6, 5, 4, 3, 2, 1] (1 / 20) 5
    (fun _ => true) (fun i => i) (by decide) (by decide)
    (by norm_num) (by norm_num) (by decide)

/-- C7: `mate` fails with `InvalidProbabilityError` exactly when the
mutation probability lies outside `[0, 1)`, and for any probability inside
`[0, 1)` and valid parents it succeeds. -/
theorem c7_probability_check (a b : List Nat) (p : ℚ) (c : Nat)
    (flag : Nat → Bool) (val : Nat → Nat) :
    (mate a b p c flag val = .error .invalidProbability ↔ ¬ (0 ≤ p ∧ p < 1)) ∧
    (validState a → validState b → 0 ≤ p → p < 1 →
      ∃ s, mate a b p c flag val = .ok s) := by
  constructor
  · constructor
    · intro herr hrange
      unfold mate at herr
      rw [if_pos hrange] at herr
      unfold mkState at herr
      split at herr
      · simp at herr
      · split at herr
        · exact Except.noConfusion herr
        · simp at herr
    · intro hrange
      unfold mate
      rw [if_neg hrange]
  · intro ha hb hp0 hp1
    refine ⟨mateDigits a b p c flag val, ?_⟩
    unfold mate
    rw [if_pos ⟨hp0, hp1⟩]
    exact mkState_ok_of_valid _ (mateDigits_valid a b p c flag val ha hb)

/-- Witness for C7: probability 1 is rejected, probability 0 is accepted
(with valid parents). -/
theorem c7_probability_check_witness :
    (mate [1, 2, 3, 4, 5, 6, 7, 8] [8, 7, 6, 5, 4, 3, 2, 1] 1 0
        (fun _ => false) (fun _ => 0) = .error .invalidProbability
      ↔ ¬ ((0 : ℚ) ≤ 1 ∧ (1 : ℚ) < 1)) ∧
    ∃ s, mate [1, 2, 3, 4, 5, 6, 7, 8] [8, 7, 6, 5, 4, 3, 2, 1] 0 0
        (fun _ => false) (fun _ => 0) = .ok s :=
  ⟨(c7_probability_check [1, 2, 3, 4, 5, 6, 7, 8] [8, 7, 6, 5, 4, 3, 2, 1] 1 0
      (fun _ => false) (fun _ => 0)).1,
    (c7_probability_check [1, 2, 3, 4, 5, 6, 7, 8] [8, 7, 6, 5, 4, 3, 2, 1] 0 0
      (fun _ => false) (fun _ => 0)).2 (by decide) (by decide)
      (by norm_num) (by norm_num)⟩

/-! ### Fitness and the goal test (claim C3) -/

theorem foldl_count (p : Nat → Bool) :
    ∀ (l : List Nat) (a : Nat),
      l.foldl (fun acc x => if p x then acc + 1 else acc) a = a + l.countP p := by
  intro l
  induction l with
  | nil => intro a; simp
  | cons x t ih =>
    intro a
    rw [List.foldl_cons, ih, List.countP_cons]
    by_cases h : p x <;> simp [h] <;> omega

theorem fitness_eq_countP (s : List Nat) :
    fitness s = pairList.countP (fun q => nonAttacking s q.1 q.2) := by
  have main : ∀ (L : List Nat) (a : Nat),
      L.foldl (fun score i =>
        (List.range' (i + 1) (8 - (i + 1))).foldl
          (fun sc j => if nonAttacking s i j then sc + 1 else sc) score) a
      = a + (L.flatMap (fun i => (List.range' (i + 1) (8 - (i + 1))).map
          (fun j => (i, j)))).countP (fun q => nonAttacking s q.1 q.2) := by
    intro L
    induction L with
    | nil => intro a; simp
    | cons i L ih =>
      intro a
      rw [List.foldl_cons, ih, List.flatMap_cons, List.countP_append,
        List.countP_map, foldl_count]
      have hco : ((fun q : Nat × Nat => nonAttacking s q.1 q.2) ∘ fun j => (i, j))
          = nonAttacking s i := rfl
      rw [hco]
      omega
  unfold fitness pairList
  rw [main]
  omega

theorem length_pairList : pairList.length = 28 := by decide

theorem nodup_pairList : pairList.Nodup := by decide

theorem mem_pairList (i j : Nat) : (i, j) ∈ pairList ↔ i < j ∧ j < 8 := by
  simp only [pairList, BOARD_SIZE, List.mem_flatMap, List.mem_range, List.mem_map,
    List.mem_range'_1, Prod.mk.injEq]
  constructor
  · rintro ⟨i', hi', j', ⟨hj1, hj2⟩, rfl, rfl⟩
    omega
  · rintro ⟨hij, hj⟩
    exact ⟨i, by omega, j, ⟨by omega, by omega⟩, rfl, rfl⟩

theorem nonAttacking_iff (s : List Nat) (i j : Nat) :
    nonAttacking s i j = true ↔ ¬ attackProp s i j := by
  simp only [nonAttacking, attackProp, Bool.and_eq_true, bne_iff_ne, ne_eq, not_or]

theorem fitness_le (s : List Nat) : fitness s ≤ 28 := by
  rw [fitness_eq_countP, ← length_pairList]
  exact List.countP_le_length _

theorem fitness_eq_28_iff (s : List Nat) :
    fitness s = 28 ↔ ∀ i j, i < j → j < 8 → ¬ attackProp s i j := by
  rw [fitness_eq_countP]
  rw [show (28 : Nat) = pairList.length from length_pairList.symm]
  rw [List.countP_eq_length]
  constructor
  · intro hall i j hij hj
    have := hall (i, j) ((mem_pairList i j).mpr ⟨hij, hj⟩)
    exact (nonAttacking_iff s i j).mp this
  · intro hall q hq
    obtain ⟨hij, hj⟩ := (mem_pairList q.1 q.2).mp hq
    exact (nonAttacking_iff s q.1 q.2).mpr (hall q.1 q.2 hij hj)

theorem fitness_eq_card (s : List Nat) :
    fitness s = (noAttackPairs s).card := by
  have hff : noAttackPairs s
      = (pairList.filter (fun q => nonAttacking s q.1 q.2)).toFinset := by
    apply Finset.ext
    rintro ⟨i, j⟩
    simp only [noAttackPairs, Finset.mem_filter, Finset.mem_product,
      Finset.mem_range, List.mem_toFinset, List.mem_filter, mem_pairList,
      nonAttacking_iff]
    constructor
    · rintro ⟨⟨hi, hj⟩, hij, hna⟩
      exact ⟨⟨hij, hj⟩, hna⟩
    · rintro ⟨⟨hij, hj⟩, hna⟩
      exact ⟨⟨by omega, hj⟩, hij, hna⟩
  rw [hff, List.toFinset_card_of_nodup (nodup_pairList.filter _),
    fitness_eq_countP, List.countP_eq_length_filter]

/-- C3: `fitness` counts exactly the non-attacking column pairs (attack:
same row value, or absolute column difference equals absolute row
difference), lies in `[0, 28]`, equals 28 exactly when no two queens share
a row or diagonal, and `goal` holds exactly when `fitness` is 28. -/
theorem c3_fitness_spec (s : List Nat) (h : validState s) :
    fitness s = (noAttackPairs s).card ∧
    fitness s ≤ 28 ∧
    (fitness s = 28 ↔ ∀ i j, i < j → j < 8 → ¬ attackProp s i j) ∧
    (goal s = true ↔ fitness s = 28) := by
  refine ⟨fitness_eq_card s, fitness_le s, fitness_eq_28_iff s, ?_⟩
  simp [goal, SOLUTION]

/-- Witness for C3 at the known solution `'41582736'`: a valid State whose
fitness is exactly 28 and which passes the goal test. -/
theorem c3_fitness_spec_witness :
    validState [4, 1, 5, 8, 2, 7, 3, 6] ∧
    (goal [4, 1, 5, 8, 2, 7, 3, 6] = true ↔ fitness [4, 1, 5, 8, 2, 7, 3, 6] = 28) ∧
    fitness [4, 1, 5, 8, 2, 7, 3, 6] = 28 :=
  ⟨by decide, (c3_fitness_spec [4, 1, 5, 8, 2, 7, 3, 6] (by decide)).2.2.2, by decide⟩

/-! ### Random generation (claim C6) -/

theorem length_tuplesOf (n : Nat) : (tuplesOf n).length = 8 ^ n := by
  induction n with
  | zero => rfl
  | succ n ih =>
    simp only [tuplesOf, List.length_flatMap, List.length_map, ih]
    simp only [validDigits, List.map_cons, List.map_nil, List.sum_cons,
      List.sum_nil, Function.comp_apply, List.length_map, ih, pow_succ]
    ring

theorem mem_validDigits (d : Nat) : d ∈ validDigits ↔ 1 ≤ d ∧ d ≤ 8 := by
  simp only [validDigits, List.mem_cons, List.not_mem_nil, or_false]
  omega

theorem mem_tuplesOf (n : Nat) :
    ∀ t : List Nat, t ∈ tuplesOf n ↔ t.length = n ∧ ∀ d ∈ t, d ∈ validDigits := by
  induction n with
  | zero =>
    intro t
    simp only [tuplesOf, List.mem_singleton]
    constructor
    · rintro rfl; simp
    · rintro ⟨hl, _⟩; exact List.length_eq_zero.mp hl
  | succ n ih =>
    intro t
    simp only [tuplesOf, List.mem_flatMap, List.mem_map]
    constructor
    · rintro ⟨d, hd, t', ht', rfl⟩
      obtain ⟨hl, hv⟩ := (ih t').mp ht'
      refine ⟨by simp [hl], ?_⟩
      intro e he
      rcases List.mem_cons.mp he with rfl | he'
      · exact hd
      · exact hv e he'
    · rintro ⟨hl, hv⟩
      cases t with
      | nil => simp at hl
      | cons d t' =>
        refine ⟨d, hv d (by simp), t', (ih t').mpr ⟨by simpa using hl, ?_⟩, rfl⟩
        exact fun e he => hv e (List.mem_cons_of_mem d he)

theorem nodup_tuplesOf : ∀ n, (tuplesOf n).Nodup := by
  intro n
  induction n with
  | zero => simp [tuplesOf]
  | succ n ih =>
    rw [tuplesOf, List.nodup_flatMap]
    constructor
    · intro d _
      exact ih.map (fun a b h => by injection h)
    · have hne : validDigits.Pairwise (· ≠ ·) := by decide
      refine hne.imp ?_
      intro a b hab
      intro x hxa hxb
      simp only [List.mem_map] at hxa hxb
      obtain ⟨ta, _, rfl⟩ := hxa
      obtain ⟨tb, _, htb⟩ := hxb
      injection htb with h1 _
      exact hab h1.symm

theorem valid_of_mem_tuplesOf (t : List Nat) (h : t ∈ tuplesOf 8) :
    validState t := by
  obtain ⟨hl, hv⟩ := (mem_tuplesOf 8 t).mp h
  exact ⟨hl, fun d hd => (mem_validDigits d).mp (hv d hd)⟩

theorem yieldStates_ok (sample : List (List Nat))
    (h : ∀ t ∈ sample, validState t) : yieldStates sample = .ok sample := by
  induction sample with
  | nil => rfl
  | cons t ts ih =>
    rw [yieldStates, mkState_ok_of_valid t (h t (by simp)),
      ih (fun x hx => h x (List.mem_cons_of_mem t hx))]

/-- C6: `generateRandom(count)` fails with `SampleSizeError` when
`count <= 0` or `count` exceeds `8^8`; otherwise, for every possible
outcome of sampling without replacement from the full `8^8`-tuple space, it
returns exactly `count` States, pairwise distinct, each satisfying the
State invariant — and such an outcome exists for every count in range. -/
theorem c6_generator_contract (count : Int) (sample : List (List Nat)) :
    (count ≤ 0 → generator count sample = .error .sampleSize) ∧
    ((8 : Int) ^ 8 < count → generator count sample = .error .sampleSize) ∧
    (0 < count → count ≤ (8 : Int) ^ 8 → sampleOutcome count.toNat sample →
      generator count sample = .ok sample ∧ sample.length = count.toNat ∧
        sample.Nodup ∧ ∀ t ∈ sample, validState t) ∧
    (0 < count → count ≤ (8 : Int) ^ 8 → ∃ smp, sampleOutcome count.toNat smp) := by
  have h8i : (8 : Int) ^ 8 = 16777216 := by norm_num
  have h8n : (8 : Nat) ^ 8 = 16777216 := by norm_num
  have hlen : ((tuplesOf 8).length : Int) = 16777216 := by
    rw [length_tuplesOf, h8n]; norm_num
  refine ⟨fun h => ?_, fun h => ?_, fun h1 h2 hs => ?_, fun h1 h2 => ?_⟩
  · simp [generator, h]
  · unfold generator
    rw [if_neg (by omega), if_pos (by omega)]
  · obtain ⟨hlen', hnodup, hmem⟩ := hs
    have hvalid : ∀ t ∈ sample, validState t :=
      fun t ht => valid_of_mem_tuplesOf t (hmem t ht)
    unfold generator
    rw [if_neg (by omega), if_neg (by omega)]
    exact ⟨yieldStates_ok sample hvalid, hlen', hnodup, hvalid⟩
  · refine ⟨(tuplesOf 8).take count.toNat, ?_, ?_, ?_⟩
    · rw [List.length_take, length_tuplesOf, h8n]
      omega
    · exact (nodup_tuplesOf 8).sublist (List.take_sublist _ _)
    · exact fun t ht => List.take_subset _ _ ht

/-- Witness for C6: a zero count and an oversized count fail with
`SampleSizeError`; a two-element sample outcome yields two distinct valid
States. -/
theorem c6_generator_contract_witness :
    generator 0 [] = .error .sampleSize ∧
    generator 16777217 [] = .error .sampleSize ∧
    (generator 2 [[1, 1, 1, 1, 1, 1, 1, 1], [1, 1, 1, 1, 1, 1, 1, 2]]
        = .ok [[1, 1, 1, 1, 1, 1, 1, 1], [1, 1, 1, 1, 1, 1, 1, 2]] ∧
      ([[1, 1, 1, 1, 1, 1, 1, 1], [1, 1, 1, 1, 1, 1, 1, 2]] : List (List Nat)).length
          = (2 : Int).toNat ∧
      ([[1, 1, 1, 1, 1, 1, 1, 1], [1, 1, 1, 1, 1, 1, 1, 2]] : List (List Nat)).Nodup ∧
      ∀ t ∈ ([[1, 1, 1, 1, 1, 1, 1, 1], [1, 1, 1, 1, 1, 1, 1, 2]] : List (List Nat)),
        validState t) := by
  refine ⟨(c6_generator_contract 0 []).1 (by norm_num),
    (c6_generator_contract 16777217 []).2.1 (by norm_num),
    (c6_generator_contract 2 _).2.2.1 (by norm_num) (by norm_num) ?_⟩
  refine ⟨rfl, by decide, ?_⟩
  intro t ht
  simp only [List.mem_cons, List.not_mem_nil, or_false] at ht
  rcases ht with rfl | rfl
  · exact (mem_tuplesOf 8 _).mpr (by decide)
  · exact (mem_tuplesOf 8 _).mpr (by decide)

/-! ### The breeding loop of one generation (claim C2) -/

theorem genBody_iterations (pool : List (List Nat)) (oc : Nat → Nat)
    (om : Nat → Nat → Bool) (ov : Nat → Nat → Nat) (r : GenResult) (i : Nat) :
    (genBody pool oc om ov r i).iterations = r.iterations + 1 := rfl

theorem genBody_children (pool : List (List Nat)) (oc : Nat → Nat)
    (om : Nat → Nat → Bool) (ov : Nat → Nat → Nat) (r : GenResult) (i : Nat) :
    (genBody pool oc om ov r i).children
      = r.children ++ [childAt pool oc om ov i] := rfl

theorem genBody_searching (pool : List (List Nat)) (oc : Nat → Nat)
    (om : Nat → Nat → Bool) (ov : Nat → Nat → Nat) (r : GenResult) (i : Nat) :
    (genBody pool oc om ov r i).searching
      = if goal (childAt pool oc om ov i) then false else r.searching := rfl

theorem genBody_golden (pool : List (List Nat)) (oc : Nat → Nat)
    (om : Nat → Nat → Bool) (ov : Nat → Nat → Nat) (r : GenResult) (i : Nat) :
    (genBody pool oc om ov r i).golden
      = if goal (childAt pool oc om ov i) then some (childAt pool oc om ov i)
        else r.golden := rfl

theorem foldl_genBody_iterations (pool : List (List Nat)) (oc : Nat → Nat)
    (om : Nat → Nat → Bool) (ov : Nat → Nat → Nat) :
    ∀ (l : List Nat) (r : GenResult),
      (l.foldl (genBody pool oc om ov) r).iterations = r.iterations + l.length := by
  intro l
  induction l with
  | nil => intro r; simp
  | cons i t ih =>
    intro r
    rw [List.foldl_cons, ih, genBody_iterations]
    simp only [List.length_cons]
    omega

theorem foldl_genBody_children (pool : List (List Nat)) (oc : Nat → Nat)
    (om : Nat → Nat → Bool) (ov : Nat → Nat → Nat) :
    ∀ (l : List Nat) (r : GenResult),
      (l.foldl (genBody pool oc om ov) r).children
        = r.children ++ l.map (childAt pool oc om ov) := by
  intro l
  induction l with
  | nil => intro r; simp
  | cons i t ih =>
    intro r
    rw [List.foldl_cons, ih, genBody_children, List.map_cons, List.append_assoc,
      List.singleton_append]

theorem foldl_genBody_searching (pool : List (List Nat)) (oc : Nat → Nat)
    (om : Nat → Nat → Bool) (ov : Nat → Nat → Nat) :
    ∀ (l : List Nat) (r : GenResult),
      (l.foldl (genBody pool oc om ov) r).searching
        = (r.searching && !(l.map (childAt pool oc om ov)).any (fun c => goal c)) := by
  intro l
  induction l with
  | nil => intro r; simp
  | cons i t ih =>
    intro r
    rw [List.foldl_cons, ih, genBody_searching, List.map_cons, List.any_cons]
    by_cases hg : goal (childAt pool oc om ov i) <;> simp [hg]

theorem getLast?_cons_or {α : Type} (c : α) (xs : List α) :
    (c :: xs).getLast? = xs.getLast?.or (some c) := by
  cases xs with
  | nil => rfl
  | cons x xs' =>
    rw [List.getLast?_cons_cons]
    have hs : ((x :: xs').getLast?).isSome = true := by
      rw [List.getLast?_isSome]
      simp
    obtain ⟨v, hv⟩ := Option.isSome_iff_exists.mp hs
    rw [hv]
    rfl

theorem foldl_genBody_golden (pool : List (List Nat)) (oc : Nat → Nat)
    (om : Nat → Nat → Bool) (ov : Nat → Nat → Nat) :
    ∀ (l : List Nat) (r : GenResult),
      (l.foldl (genBody pool oc om ov) r).golden
        = (lastGoal (l.map (childAt pool oc om ov))).or r.golden := by
  intro l
  induction l with
  | nil => intro r; simp [lastGoal]
  | cons i t ih =>
    intro r
    rw [List.foldl_cons, ih, genBody_golden, List.map_cons]
    unfold lastGoal
    by_cases hg : goal (childAt pool oc om ov i)
    · rw [List.filter_cons_of_pos (by simpa using hg), getLast?_cons_or, if_pos hg,
        Option.or_assoc]
      rfl
    · rw [List.filter_cons_of_neg (by simpa using hg), if_neg hg]

theorem runGeneration_children (pool : List (List Nat)) (oc : Nat → Nat)
    (om : Nat → Nat → Bool) (ov : Nat → Nat → Nat) (it : Nat) :
    (runGeneration pool oc om ov (initGen it)).children
      = (List.range (K - 1)).map (childAt pool oc om ov) := by
  rw [runGeneration, foldl_genBody_children]
  simp [initGen]

theorem runGeneration_iterations (pool : List (List Nat)) (oc : Nat → Nat)
    (om : Nat → Nat → Bool) (ov : Nat → Nat → Nat) (it : Nat) :
    (runGeneration pool oc om ov (initGen it)).iterations = it + (K - 1) := by
  rw [runGeneration, foldl_genBody_iterations]
  simp [initGen]

theorem runGeneration_golden (pool : List (List Nat)) (oc : Nat → Nat)
    (om : Nat → Nat → Bool) (ov : Nat → Nat → Nat) (it : Nat) :
    (runGeneration pool oc om ov (initGen it)).golden
      = lastGoal ((List.range (K - 1)).map (childAt pool oc om ov)) := by
  rw [runGeneration, foldl_genBody_golden]
  simp [initGen, Option.or_none]

theorem runGeneration_searching (pool : List (List Nat)) (oc : Nat → Nat)
    (om : Nat → Nat → Bool) (ov : Nat → Nat → Nat) (it : Nat) :
    (runGeneration pool oc om ov (initGen it)).searching
      = !((List.range (K - 1)).map (childAt pool oc om ov)).any (fun c => goal c) := by
  rw [runGeneration, foldl_genBody_searching]
  simp [initGen]

/-- C2 amended: within one generation, the breeding loop always performs
all `K - 1` mating calls — after the first goal child it keeps generating
children to the end of the generation; the loop leaves `searching` exactly
when some child of the generation passes the goal test, and the recorded
solution is the LAST goal child bred in the generation, not the first; the
`iterations` counter grows by the full `K - 1` every generation, including
the final one. -/
theorem c2_full_generation (pool : List (List Nat)) (oc : Nat → Nat)
    (om : Nat → Nat → Bool) (ov : Nat → Nat → Nat) (it : Nat) :
    (runGeneration pool oc om ov (initGen it)).iterations = it + (K - 1) ∧
    (runGeneration pool oc om ov (initGen it)).children
      = (List.range (K - 1)).map (childAt pool oc om ov) ∧
    (runGeneration pool oc om ov (initGen it)).children.length = K - 1 ∧
    (runGeneration pool oc om ov (initGen it)).golden
      = lastGoal (runGeneration pool oc om ov (initGen it)).children ∧
    ((runGeneration pool oc om ov (initGen it)).searching = false
      ↔ ∃ c ∈ (runGeneration pool oc om ov (initGen it)).children, goal c = true) := by
  have hch := runGeneration_children pool oc om ov it
  refine ⟨runGeneration_iterations pool oc om ov it, hch, ?_, ?_, ?_⟩
  · rw [hch, List.length_map, List.length_range]
  · rw [runGeneration_golden, hch]
  · rw [runGeneration_searching, hch]
    simp [List.any_eq_true]

/-- On `cexPool` with crossover point 0 and no mutation firing, the child
of pair `(i, i+1)` is pool member `i + 1`. -/
theorem cex_childAt (ov : Nat → Nat → Nat) (i : Nat) :
    childAt cexPool (fun _ => 0) (fun _ _ => false) ov i
      = cexPool.getD (i + 1) [] := by
  unfold childAt mateDigits crossover
  rw [if_pos (by norm_num [MUTATION_PROBABILITY])]
  rw [List.take_zero, List.drop_zero, List.nil_append]
  apply List.ext_getElem
  · simp [mutate]
  · intro n h1 h2
    have hn : n < (cexPool.getD (i + 1) []).length := by
      simpa [mutate] using h1
    simp only [mutate, List.getElem_map, List.getElem_range]
    rw [List.getD_eq_getElem _ _ hn]
    simp

theorem getD_replicate_lt {α : Type} (a d : α) :
    ∀ (n j : Nat), j < n → (List.replicate n a).getD j d = a := by
  intro n
  induction n with
  | zero => intro j hj; omega
  | succ n ih =>
    intro j hj
    cases j with
    | zero => rfl
    | succ j =>
      rw [List.replicate_succ, List.getD_cons_succ]
      exact ih j (by omega)

theorem cex_children :
    (List.range 999).map
        (childAt cexPool (fun _ => 0) (fun _ _ => false) (fun _ _ => 0))
      = G1 :: List.replicate 998 G2 := by
  rw [List.range_succ_eq_map, List.map_cons, List.map_map]
  have h0 : childAt cexPool (fun _ => 0) (fun _ _ => false) (fun _ _ => 0) 0 = G1 := by
    rw [cex_childAt]
    unfold cexPool
    rw [List.getD_cons_succ, List.getD_cons_zero]
  rw [h0]
  refine congrArg (G1 :: ·) ?_
  · have hpt : ∀ j ∈ List.range 998,
        (childAt cexPool (fun _ => 0) (fun _ _ => false) (fun _ _ => 0)
          ∘ Nat.succ) j = G2 := by
      intro j hj
      have hj' : j < 998 := List.mem_range.mp hj
      show childAt cexPool (fun _ => 0) (fun _ _ => false) (fun _ _ => 0) (j + 1) = G2
      rw [cex_childAt]
      have hsh : cexPool.getD (j + 1 + 1) [] = (List.replicate 998 G2).getD j [] := by
        unfold cexPool
        rw [List.getD_cons_succ, List.getD_cons_succ]
      rw [hsh, getD_replicate_lt G2 [] 998 j hj']
    rw [List.map_congr_left hpt, List.map_const', List.length_range]

/-- C2 counterexample: a run of one generation (pool size `K = 1000`, so
`K - 1 = 999` mating calls) in which the very first child bred is the goal
state `G1`, yet the loop goes on to breed 998 further children, counts all
999 mating calls in `iterations`, and records as `golden_child` the goal
child `G2` of the last mating call — not the first goal child `G1`. -/
theorem c2_counterexample :
    cexRun.children.getD 0 [] = G1 ∧
    goal G1 = true ∧
    cexRun.children.length = 999 ∧
    cexRun.iterations = 999 ∧
    cexRun.golden = some G2 ∧
    G2 ≠ G1 := by
  have hK : K - 1 = 999 := rfl
  have hch' : cexRun.children = G1 :: List.replicate 998 G2 := by
    show (runGeneration cexPool (fun _ => 0) (fun _ _ => false) (fun _ _ => 0)
      (initGen 0)).children = _
    rw [runGeneration_children, hK, cex_children]
  refine ⟨by rw [hch']; rfl, by decide, ?_, ?_, ?_, by decide⟩
  · rw [hch', List.length_cons, List.length_replicate]
  · show (runGeneration cexPool (fun _ => 0) (fun _ _ => false) (fun _ _ => 0)
      (initGen 0)).iterations = 999
    rw [runGeneration_iterations, hK]
  · show (runGeneration cexPool (fun _ => 0) (fun _ _ => false) (fun _ _ => 0)
      (initGen 0)).golden = some G2
    rw [runGeneration_golden, hK, cex_children]
    unfold lastGoal
    rw [List.filter_cons_of_pos (by decide)]
    have hfilt : (List.replicate 998 G2).filter (fun c => goal c)
        = List.replicate 998 G2 := by
      rw [List.filter_eq_self]
      intro a ha
      rw [List.eq_of_mem_replicate ha]
      decide
    rw [hfilt]
    rw [show (998 : Nat) = 997 + 1 from rfl, List.replicate_succ']
    rw [show G1 :: (List.replicate 997 G2 ++ [G2])
        = (G1 :: List.replicate 997 G2) ++ [G2] from rfl]
    exact List.getLast?_concat _

end NQueens
